import Mathlib

/-!
Verification of the codeDoc documentation generator (src/app.py, src/agent.py)
against its natural-language specification.

Python strings are modelled as `List Char` where character-level behaviour
matters (placeholder substitution, URL classification) and as `String`
elsewhere.  Behaviour of the outside world that the code branches on — the
completion capability, the repository clone, the file system — is modelled as
explicit outcome values passed to the embedded functions, mirroring the call
sites in `src/app.py`.
-/

namespace CodeDoc

/-- Model of the `FileInfo` dataclass (src/app.py lines 35-41): file path, raw
content, optional module docstring, and `(name, docstring)` pairs for the
functions and classes found in the file.  Python's `Optional[str]` docstrings
become `Option String`. -/
structure FileInfo where
  file_path : String
  content : String
  module_docstring : Option String
  functions : List (String × Option String)
  classes : List (String × Option String)
deriving DecidableEq

/-! ### Python `str.replace` and the evaluator's grading-prompt substitution -/

/-- Fuel-indexed model of Python `str.replace(old, new)` for a non-empty
pattern `old`: scan left to right, replacing each non-overlapping occurrence
of `old` by `new`.  `fuel` bounds the number of scan steps; every step consumes
at least one character of the scanned string, so fuel equal to the string
length is always enough. -/
def replaceFuel (old new : List Char) : Nat → List Char → List Char
  | _, [] => []
  | 0, s => s
  | fuel + 1, c :: rest =>
    if old.isPrefixOf (c :: rest) then
      new ++ replaceFuel old new fuel (rest.drop (old.length - 1))
    else
      c :: replaceFuel old new fuel rest

/-- Python `s.replace(old, new)`, as used in src/app.py lines 148-149.  The
patterns replaced there are the two fixed non-empty placeholder tokens, so the
empty-pattern case (where Python would interleave `new` everywhere) is mapped
to the identity. -/
def pyReplace (s old new : List Char) : List Char :=
  if old.isEmpty then s else replaceFuel old new s.length s

/-- The reference-document placeholder token of the grading template. -/
def origTok : List Char := "{original}".toList

/-- The generated-document placeholder token of the grading template. -/
def genTok : List Char := "{generated}".toList

/-- Text of the grading template before the reference placeholder. -/
def promptPre : List Char :=
  "You are grading generated documentation against a reference. Reference document: ".toList

/-- Text of the grading template between the two placeholders. -/
def promptMid : List Char := " Generated document: ".toList

/-- Text of the grading template after the generated-document placeholder. -/
def promptSuf : List Char := " Provide a critique and a score.".toList

/-- Modelled from the spec: `GRADING_PROMPT` is imported from `prompts.py`,
which is not among the sources; per spec section 4.5 it is a fixed grading
template containing one placeholder for the reference document and one for the
generated document. -/
def GRADING_PROMPT : List Char :=
  promptPre ++ origTok ++ promptMid ++ genTok ++ promptSuf

/-- Model of the prompt assembled by `evaluate_documentation`
(src/app.py lines 145-153): first every occurrence of the reference
placeholder in `GRADING_PROMPT` is replaced by `original_doc`, then every
occurrence of the generated-document placeholder in the result is replaced by
`generated_doc`; the resulting string is what is handed to the completion
agent. -/
def evaluate_documentation_prompt (original_doc generated_doc : List Char) : List Char :=
  pyReplace (pyReplace GRADING_PROMPT origTok original_doc) genTok generated_doc

/-- Occurrence test: does `tok` occur as a contiguous substring of the second
argument?  Used to state that a placeholder token does (not) survive in the
final prompt. -/
def hasInfix (tok : List Char) : List Char → Bool
  | [] => tok.isEmpty
  | c :: rest => tok.isPrefixOf (c :: rest) || hasInfix tok rest

/-! ### The documentation synthesizer's completion call (claims C2, C3) -/

/-- Outcome of the single completion-capability request issued by
`generate_holistic_documentation` (src/app.py lines 126-136): either the call
returns a message text, or it raises one of the two provider exceptions the
code names, or it raises anything else.  Note that the module never imports
`openai`, so in the shipped code the name lookup itself raises before the
request is issued; the claims condition on the outcome of the completion call,
which is therefore taken as an input of the model. -/
inductive CompletionOutcome where
  | success (text : String)
  | authenticationError
  | apiConnectionError
  | otherError (msg : String)
deriving DecidableEq

/-- Model of Python `str.strip()` with no argument: remove leading and
trailing whitespace characters. -/
def pyStrip (s : String) : String :=
  ⟨((s.toList.dropWhile Char.isWhitespace).reverse.dropWhile Char.isWhitespace).reverse⟩

/-- Model of Python `str.endswith(suffix)`. -/
def pyEndsWith (s suffix : String) : Bool :=
  suffix.toList.isSuffixOf s.toList

/-- Observable result of one `generate_holistic_documentation` invocation: the
value returned to the caller, the error banners shown through `st.error`, and
the messages written through `logger.error`. -/
structure GenerationResult where
  result : Option String
  ui_errors : List String
  log_errors : List String
deriving DecidableEq

/-- Model of `generate_holistic_documentation` (src/app.py lines 104-143).
On success the completion text is stripped and returned (line 136); an
`AuthenticationError` and an `APIConnectionError` each display a fixed
`st.error` banner and fall through to `return None` (lines 137-143); any other
exception is logged and also falls through to `return None`.  The prompt
assembly of lines 107-124 is omitted because no claim refers to the prompt
text; the unused `project_info` and `template` parameters keep the source
signature. -/
def generate_holistic_documentation (project_info : List FileInfo) (template : String)
    (outcome : CompletionOutcome) : GenerationResult :=
  match outcome with
  | .success text => ⟨some (pyStrip text), [], []⟩
  | .authenticationError =>
      ⟨none, ["Invalid Azure OpenAI API Key. Please check your configuration."], []⟩
  | .apiConnectionError =>
      ⟨none, ["Failed to connect to Azure OpenAI. Please check your network and API endpoint."], []⟩
  | .otherError msg =>
      ⟨none, [], ["Error generating holistic documentation: " ++ msg]⟩

/-! ### Clone acquisition and ephemeral-storage release (claim C4) -/

/-- Outcome of the external `Repo.clone_from` call in `clone_github_repo`
(src/app.py line 55). -/
inductive CloneOutcome where
  | ok
  | err (msg : String)
deriving DecidableEq

/-- Kind of input reaching `process_input_path` (src/app.py lines 155-170):
a local path that exists or not, or a repository URL together with the clone
outcome. -/
inductive PipelineInput where
  | localPath (pathExists : Bool)
  | remoteUrl (clone : CloneOutcome)
deriving DecidableEq

/-- Result of `process_input_path`: the directory returned to `main`, whether
a `TemporaryDirectory` handle was returned alongside it, how many
`TemporaryDirectory` objects were allocated on the way, and the `st.error`
banners shown. -/
structure LocateResult where
  directory_path : Option String
  returned_handle : Bool
  allocated : Nat
  ui_errors : List String
deriving DecidableEq

/-- Model of `clone_github_repo` (src/app.py lines 51-59) composed with
`process_input_path` (lines 155-170).  `tempfile.TemporaryDirectory()` is
allocated before the clone is attempted; on clone failure the raised exception
is caught, an `st.error` banner is shown and `(None, None)` is returned — the
allocated handle is lost and never returned to the caller. -/
def process_input_path : PipelineInput → LocateResult
  | .remoteUrl .ok => ⟨some "tmpdir", true, 1, []⟩
  | .remoteUrl (.err msg) =>
      ⟨none, false, 1,
        ["Error processing GitHub repository: Failed to clone repository: " ++ msg]⟩
  | .localPath true => ⟨some "input_path", false, 0, []⟩
  | .localPath false => ⟨none, false, 0, ["Invalid directory path"]⟩

/-- Trace of one run of the generation block of `main`
(src/app.py lines 192-214): allocations, explicit `cleanup()` calls, error
banners, and whether processing proceeded past input resolution. -/
structure RunTrace where
  allocated : Nat
  released : Nat
  ui_errors : List String
  proceeded : Bool
deriving DecidableEq

/-- Model of the generation block of `main` (src/app.py lines 192-214): when
`process_input_path` returns a directory, the pipeline body runs under
`try/finally` and the `finally` calls `temp_dir.cleanup()` exactly once when a
handle was returned; when it returns `None`, the block is skipped entirely and
no cleanup call is made. -/
def run_main (inp : PipelineInput) : RunTrace :=
  let loc := process_input_path inp
  match loc.directory_path with
  | some _ => ⟨loc.allocated, if loc.returned_handle then 1 else 0, loc.ui_errors, true⟩
  | none => ⟨loc.allocated, 0, loc.ui_errors, false⟩

/-! ### File enumeration with a depth bound (claim C5) -/

/-- The module-level constant `MAX_DIRECTORY_DEPTH` (src/app.py line 14), the
default value of the `max_depth` parameter of `get_python_files`. -/
def MAX_DIRECTORY_DEPTH : Nat := 5

/-- Model of `get_python_files` (src/app.py lines 61-70).  `os.walk` is
modelled by the sequence of entries it yields: one entry per visited
directory, carrying the directory's path relative to the walk root as a list
of segments together with the file names found there.  The number of `os.sep`
characters in `root[len(directory):]` equals the length of that segment list
(the top directory yields the empty suffix, a child directory the suffix
`/name`, and so on), so the depth test of line 66 becomes a length test. -/
def get_python_files (walk : List (List String × List String)) (max_depth : Nat) :
    List (List String) :=
  walk.flatMap (fun rf =>
    if rf.1.length < max_depth then
      (rf.2.filter (fun f => pyEndsWith f ".py")).map (fun f => rf.1 ++ [f])
    else [])

/-- Concrete two-directory walk used by the C5 witness. -/
def walkExample : List (List String × List String) :=
  [([], ["a.py", "readme.md"]), (["sub"], ["c.py"])]

/-! ### Structural extraction from the Python AST (claims C7, C8, C10) -/

mutual
/-- Statement nodes of the parsed Python module, as far as `extract_info`
(src/app.py lines 72-93) inspects them: synchronous function definitions,
asynchronous function definitions (`ast.AsyncFunctionDef`, a class distinct
from `ast.FunctionDef`), class definitions, bare string-constant expression
statements (docstring candidates), and any other statement together with the
statements nested inside it. -/
inductive PyStmt where
  | funcDef : String → PyBody → PyStmt
  | asyncFuncDef : String → PyBody → PyStmt
  | classDef : String → PyBody → PyStmt
  | exprConstStr : String → PyStmt
  | otherStmt : PyBody → PyStmt
deriving DecidableEq
/-- A statement body: an ordered sequence of statements. -/
inductive PyBody where
  | nil : PyBody
  | cons : PyStmt → PyBody → PyBody
deriving DecidableEq
end

mutual
/-- Number of statement nodes in one statement, itself included. -/
def stmtSize : PyStmt → Nat
  | .funcDef _ b => 1 + bodySize b
  | .asyncFuncDef _ b => 1 + bodySize b
  | .classDef _ b => 1 + bodySize b
  | .exprConstStr _ => 1
  | .otherStmt b => 1 + bodySize b
/-- Number of statement nodes in a body. -/
def bodySize : PyBody → Nat
  | .nil => 0
  | .cons s r => stmtSize s + bodySize r
end

/-- The child statements of a statement node. -/
def childBody : PyStmt → PyBody
  | .funcDef _ b => b
  | .asyncFuncDef _ b => b
  | .classDef _ b => b
  | .exprConstStr _ => .nil
  | .otherStmt b => b

/-- Concatenation of bodies. -/
def bodyApp : PyBody → PyBody → PyBody
  | .nil, q => q
  | .cons s r, q => .cons s (bodyApp r q)

/-- Breadth-first queue traversal with explicit fuel: pop the front statement,
emit it, and enqueue its children at the back.  Every step pops one node, so
fuel equal to the total node count is always enough. -/
def walkAux : Nat → PyBody → List PyStmt
  | 0, _ => []
  | _ + 1, .nil => []
  | fuel + 1, .cons s rest => s :: walkAux fuel (bodyApp rest (childBody s))

/-- Model of `ast.walk(tree)` (src/app.py lines 81-82) restricted to statement
nodes: the breadth-first enumeration of every statement in the module, at any
nesting depth.  (The real `ast.walk` also yields the `Module` node and
expression nodes; both are discarded by the `isinstance` filters, so they are
omitted.) -/
def walk (m : PyBody) : List PyStmt := walkAux (bodySize m) m

/-- Depth-first enumeration of all statement nodes, with explicit fuel
bounding the node count; used as the order-independent reference enumeration
the breadth-first walk is compared against. -/
def allNodesAux : Nat → PyBody → List PyStmt
  | 0, _ => []
  | _ + 1, .nil => []
  | fuel + 1, .cons s rest => s :: (allNodesAux fuel (childBody s) ++ allNodesAux fuel rest)

/-- All statement nodes of a module body, in depth-first order. -/
def allNodesBody (m : PyBody) : List PyStmt := allNodesAux (bodySize m) m

/-- Model of `ast.get_docstring(node)`: the string constant that is the first
statement of the body, if any.  (`ast.get_docstring` also normalises
indentation of the returned text; that cleaning is not modelled.) -/
def get_docstring : PyBody → Option String
  | .cons (.exprConstStr s) _ => some s
  | _ => none

/-- The `(f.name, ast.get_docstring(f))` tuple built at src/app.py line 88 for
nodes passing `isinstance(node, ast.FunctionDef)`. -/
def pickFunction : PyStmt → Option (String × Option String)
  | .funcDef n b => some (n, get_docstring b)
  | _ => none

/-- The `(c.name, ast.get_docstring(c))` tuple built at src/app.py line 89 for
nodes passing `isinstance(node, ast.ClassDef)`. -/
def pickClass : PyStmt → Option (String × Option String)
  | .classDef n b => some (n, get_docstring b)
  | _ => none

/-- Outcome of the fallible prelude of `extract_info` (src/app.py lines
75-78): the file was opened, read, decoded and parsed, yielding its content
and statement tree; or opening/reading raised `OSError`; or decoding raised
`UnicodeDecodeError`; or parsing raised `SyntaxError`. -/
inductive ParseOutcome where
  | ok (content : String) (tree : PyBody)
  | ioError (msg : String)
  | decodeError (msg : String)
  | syntaxError (msg : String)
deriving DecidableEq

/-- Model of `extract_info` (src/app.py lines 72-93): on a successful parse it
builds a `FileInfo` from the module docstring and the `(name, docstring)`
pairs of every `FunctionDef` and every `ClassDef` found by `ast.walk`; any
failure is caught by the `except Exception` handler, logged, and turned into
`None`. -/
def extract_info (file_path : String) (outcome : ParseOutcome) : Option FileInfo :=
  match outcome with
  | .ok content tree =>
      some ⟨file_path, content, get_docstring tree,
        (walk tree).filterMap pickFunction,
        (walk tree).filterMap pickClass⟩
  | .ioError _ => none
  | .decodeError _ => none
  | .syntaxError _ => none

/-- Spec-side reading for C7: the names of the top-level function definitions
of the module, i.e. the `FunctionDef` statements appearing directly in the
module body. -/
def topLevelFunctionNames : PyBody → List String
  | .nil => []
  | .cons (.funcDef n _) r => n :: topLevelFunctionNames r
  | .cons _ r => topLevelFunctionNames r

/-- A module whose single top-level function contains a nested function;
used by the C7 counterexample. -/
def nestedExample : PyBody :=
  .cons (.funcDef "outer" (.cons (.funcDef "inner" .nil) .nil)) .nil

/-- A module with a top-level async function and a class with one method;
used by the C10 witness. -/
def asyncExample : PyBody :=
  .cons (.asyncFuncDef "fetch" .nil)
    (.cons (.classDef "C" (.cons (.funcDef "method" .nil) .nil)) .nil)

/-! ### Per-file extraction loop of `main` (claim C9) -/

/-- Model of the extraction loop of `main` (src/app.py lines 201-208): for
each enumerated path, `extract_info` either yields a `FileInfo`, which is
appended to `project_info`, or `None`, which appends a
`logger.warning` message instead; the file-system dependence of
`extract_info` is abstracted as the function `extract`. -/
def main_loop (extract : String → Option FileInfo) (file_paths : List String) :
    List FileInfo × List String :=
  file_paths.foldl
    (fun acc file_path =>
      match extract file_path with
      | some fi => (acc.1 ++ [fi], acc.2)
      | none => (acc.1, acc.2 ++ ["Failed to extract information from " ++ file_path]))
    ([], [])

/-! ### URL classification by the source locator (claim C6) -/

/-- The hosting-service network location the classifier compares against. -/
def ghHost : List Char := "github.com".toList

/-- Model of Python `str.lstrip("/")`: drop the leading run of slashes. -/
def lstripSlash (l : List Char) : List Char := l.dropWhile (fun c => c == '/')

/-- Model of Python `str.rstrip("/")`: drop the trailing run of slashes. -/
def rstripSlash : List Char → List Char
  | [] => []
  | c :: rest =>
    match rstripSlash rest with
    | [] => if c == '/' then [] else [c]
    | r => c :: r

/-- Model of Python `str.strip("/")`: drop leading and trailing slashes. -/
def stripSlash (l : List Char) : List Char := rstripSlash (lstripSlash l)

/-- Model of Python `str.split("/")`: the slash-separated parts, with an empty
part for each leading, trailing or repeated separator, and `[""]` for the
empty string. -/
def splitSlash : List Char → List (List Char)
  | [] => [[]]
  | c :: rest =>
    if c == '/' then [] :: splitSlash rest
    else
      match splitSlash rest with
      | [] => [[c]]
      | s :: ss => (c :: s) :: ss

/-- Model of `is_github_url` (src/app.py lines 43-49) at the level of the
parsed URL components: `parsed.netloc == "github.com" and
len(parsed.path.strip("/").split("/")) >= 2`.  `urlparse` is standard
library; the function's decision depends only on the `netloc` and `path`
components of its result, which are therefore taken as the inputs here. -/
def is_github_url (netloc path : List Char) : Bool :=
  netloc == ghHost && decide (2 ≤ (splitSlash (stripSlash path)).length)

/-- Spec reading of the URL host: the network location with any user
information (everything up to the last `@`) and any port (everything from the
following `:`) removed. -/
def hostOf (netloc : List Char) : List Char :=
  ((netloc.reverse.takeWhile (fun c => !(c == '@'))).reverse).takeWhile (fun c => !(c == ':'))

/-- Number of non-empty slash-separated segments of a path. -/
def nonemptySegmentCount (path : List Char) : Nat :=
  ((splitSlash path).filter (fun s => !(s.isEmpty))).length

/-- Spec-side classifier for C6, following the claim's words: the input is a
remote-repository reference iff the URL host identifies the hosting service
and the path has at least two non-empty segments. -/
def spec_is_remote (netloc path : List Char) : Prop :=
  hostOf netloc = ghHost ∧ 2 ≤ nonemptySegmentCount path

/-- Does the list contain a character other than `/`? -/
def hasNonSlash (l : List Char) : Bool := l.any (fun c => !(c == '/'))

/-- Does some slash have a non-slash character somewhere after it? -/
def slashThenNonSlash : List Char → Bool
  | [] => false
  | c :: rest => if c == '/' then hasNonSlash rest else slashThenNonSlash rest

/-- Does the list contain a non-slash, then a slash, then again a non-slash? -/
def twoSegs : List Char → Bool
  | [] => false
  | c :: rest => if c == '/' then twoSegs rest else slashThenNonSlash rest

/-! ### Helper lemmas and claim theorems -/

theorem replaceFuel_congr (old new : List Char) :
    ∀ f1 f2 s, s.length ≤ f1 → s.length ≤ f2 →
      replaceFuel old new f1 s = replaceFuel old new f2 s := by
  intro f1
  induction f1 with
  | zero =>
    intro f2 s h1 _
    have hs : s = [] := List.length_eq_zero.mp (Nat.le_zero.mp h1)
    subst hs
    cases f2 <;> simp [replaceFuel]
  | succ n ih =>
    intro f2 s h1 h2
    cases s with
    | nil => cases f2 <;> simp [replaceFuel]
    | cons c rest =>
      cases f2 with
      | zero => simp at h2
      | succ m =>
        simp only [replaceFuel]
        by_cases hp : old.isPrefixOf (c :: rest) = true
        · simp only [hp, if_true]
          congr 1
          apply ih
          · have h : (rest.drop (old.length - 1)).length ≤ rest.length := by
              simp [List.length_drop]
            exact h.trans (by simpa using h1)
          · have h : (rest.drop (old.length - 1)).length ≤ rest.length := by
              simp [List.length_drop]
            exact h.trans (by simpa using h2)
        · simp only [Bool.not_eq_true] at hp
          simp only [hp, Bool.false_eq_true, if_false]
          congr 1
          apply ih
          · exact (by simpa using h1)
          · exact (by simpa using h2)

theorem replaceFuel_skip (c0 : Char) (old' new : List Char) :
    ∀ (l t : List Char) (fuel : Nat), c0 ∉ l → (l ++ t).length ≤ fuel →
      replaceFuel (c0 :: old') new fuel (l ++ t)
        = l ++ replaceFuel (c0 :: old') new t.length t := by
  intro l
  induction l with
  | nil =>
    intro t fuel _ hf
    rw [List.nil_append, List.nil_append]
    exact replaceFuel_congr (c0 :: old') new fuel t.length t (by simp at hf; exact hf) le_rfl
  | cons c rest ih =>
    intro t fuel hl hf
    have hc : (c0 == c) = false := by
      have : c ≠ c0 := fun h => hl (by simp [h])
      simp [beq_eq_false_iff_ne]
      exact fun h => this h.symm
    cases fuel with
    | zero => simp at hf
    | succ f =>
      have hrest : c0 ∉ rest := fun h => hl (List.mem_cons_of_mem _ h)
      have hlen : (rest ++ t).length ≤ f := by
        simp only [List.cons_append, List.length_cons, List.length_append] at hf
        simp only [List.length_append]
        omega
      simp only [List.cons_append, replaceFuel, List.isPrefixOf, hc, Bool.false_and,
        Bool.false_eq_true, if_false]
      exact congrArg (fun z => c :: z) (ih t f hrest hlen)

theorem isPrefixOf_append_self (l t : List Char) : l.isPrefixOf (l ++ t) = true := by
  induction l with
  | nil => simp
  | cons c rest ih => simp [List.isPrefixOf, ih]

theorem pyReplace_skip (c0 : Char) (old' new l t : List Char) (hl : c0 ∉ l) :
    pyReplace (l ++ t) (c0 :: old') new = l ++ pyReplace t (c0 :: old') new := by
  simp only [pyReplace, List.isEmpty_cons, if_false]
  exact replaceFuel_skip c0 old' new l t (l ++ t).length hl le_rfl

theorem replaceFuel_step (old new : List Char) (f : Nat) (c : Char) (rest : List Char) :
    replaceFuel old new (f + 1) (c :: rest)
      = if old.isPrefixOf (c :: rest) then
          new ++ replaceFuel old new f (rest.drop (old.length - 1))
        else c :: replaceFuel old new f rest := rfl

theorem pyReplace_head_match (c0 : Char) (old' new t : List Char) :
    pyReplace ((c0 :: old') ++ t) (c0 :: old') new = new ++ pyReplace t (c0 :: old') new := by
  have e1 : pyReplace ((c0 :: old') ++ t) (c0 :: old') new
      = replaceFuel (c0 :: old') new (((c0 :: old') ++ t)).length ((c0 :: old') ++ t) := rfl
  have e2 : (((c0 :: old') ++ t)).length = (old' ++ t).length + 1 := by simp
  have e4 : pyReplace t (c0 :: old') new
      = replaceFuel (c0 :: old') new t.length t := rfl
  rw [e1, e2, show (c0 :: old') ++ t = c0 :: (old' ++ t) from rfl, replaceFuel_step]
  rw [if_pos (show (c0 :: old').isPrefixOf (c0 :: (old' ++ t)) = true from
    isPrefixOf_append_self (c0 :: old') t)]
  have e3 : (old' ++ t).drop ((c0 :: old').length - 1) = t := by
    have h : (c0 :: old').length - 1 = old'.length := by simp
    rw [h]
    exact List.drop_left old' t
  rw [e3, e4]
  congr 1
  exact replaceFuel_congr (c0 :: old') new (old' ++ t).length t.length t
    (by rw [List.length_append]; exact Nat.le_add_left t.length old'.length) le_rfl

theorem mem_of_isPrefixOf {tok l : List Char} {x : Char}
    (h : tok.isPrefixOf l = true) (hx : x ∈ tok) : x ∈ l := by
  induction tok generalizing l with
  | nil => simp at hx
  | cons a as ih =>
    cases l with
    | nil => simp at h
    | cons b bs =>
      simp only [List.isPrefixOf, Bool.and_eq_true, beq_iff_eq] at h
      rcases List.mem_cons.mp hx with h1 | h1
      · exact List.mem_cons.mpr (Or.inl (h1.trans h.1))
      · exact List.mem_cons.mpr (Or.inr (ih h.2 h1))

theorem hasInfix_eq_false {tok L : List Char} {x : Char}
    (hx : x ∈ tok) (hL : x ∉ L) : hasInfix tok L = false := by
  induction L with
  | nil =>
    cases tok with
    | nil => simp at hx
    | cons a as => rfl
  | cons c rest ih =>
    have h1 : tok.isPrefixOf (c :: rest) = false := by
      by_contra h
      have h' := Bool.not_eq_false _ |>.mp h
      exact hL (mem_of_isPrefixOf h' hx)
    have h2 : hasInfix tok rest = false := ih (fun h => hL (List.mem_cons_of_mem _ h))
    simp [hasInfix, h1, h2]

theorem origTok_cons : origTok = '{' :: "original\x7d".toList := rfl

theorem genTok_cons : genTok = '{' :: "generated\x7d".toList := rfl

theorem pyReplace_rest_orig (v : List Char) :
    pyReplace (promptMid ++ (genTok ++ promptSuf)) origTok v
      = promptMid ++ (genTok ++ promptSuf) := rfl

theorem pyReplace_suf_gen (v : List Char) :
    pyReplace promptSuf genTok v = promptSuf := rfl

theorem pyReplace_skip_tok (old : List Char) (c0 : Char) (old' : List Char)
    (hold : old = c0 :: old') (new l t : List Char) (hl : c0 ∉ l) :
    pyReplace (l ++ t) old new = l ++ pyReplace t old new := by
  subst hold
  exact pyReplace_skip c0 old' new l t hl

theorem pyReplace_match_tok (old : List Char) (c0 : Char) (old' : List Char)
    (hold : old = c0 :: old') (new t : List Char) :
    pyReplace (old ++ t) old new = new ++ pyReplace t old new := by
  subst hold
  exact pyReplace_head_match c0 old' new t

theorem evaluate_prompt_eq (original_doc generated_doc : List Char)
    (h1 : '{' ∉ original_doc) :
    evaluate_documentation_prompt original_doc generated_doc
      = promptPre ++ original_doc ++ promptMid ++ generated_doc ++ promptSuf := by
  have hpre : '{' ∉ promptPre := by decide
  have hmid : '{' ∉ promptMid := by decide
  have step1 : pyReplace GRADING_PROMPT origTok original_doc
      = promptPre ++ (original_doc ++ (promptMid ++ (genTok ++ promptSuf))) := by
    have hshape : GRADING_PROMPT
        = promptPre ++ (origTok ++ (promptMid ++ (genTok ++ promptSuf))) := by
      simp [GRADING_PROMPT, List.append_assoc]
    rw [hshape]
    rw [pyReplace_skip_tok origTok '{' "original\x7d".toList origTok_cons original_doc
      promptPre _ hpre]
    rw [pyReplace_match_tok origTok '{' "original\x7d".toList origTok_cons original_doc _]
    rw [pyReplace_rest_orig]
  have step2 : pyReplace
        (promptPre ++ (original_doc ++ (promptMid ++ (genTok ++ promptSuf))))
        genTok generated_doc
      = promptPre ++ (original_doc ++ (promptMid ++ (generated_doc ++ promptSuf))) := by
    rw [pyReplace_skip_tok genTok '{' "generated\x7d".toList genTok_cons generated_doc
      promptPre _ hpre]
    rw [pyReplace_skip_tok genTok '{' "generated\x7d".toList genTok_cons generated_doc
      original_doc _ h1]
    rw [pyReplace_skip_tok genTok '{' "generated\x7d".toList genTok_cons generated_doc
      promptMid _ hmid]
    rw [pyReplace_match_tok genTok '{' "generated\x7d".toList genTok_cons generated_doc _]
    rw [pyReplace_suf_gen]
  calc evaluate_documentation_prompt original_doc generated_doc
      = pyReplace (promptPre ++ (original_doc ++ (promptMid ++ (genTok ++ promptSuf))))
          genTok generated_doc := by
        rw [evaluate_documentation_prompt, step1]
    _ = promptPre ++ (original_doc ++ (promptMid ++ (generated_doc ++ promptSuf))) := step2
    _ = promptPre ++ original_doc ++ promptMid ++ generated_doc ++ promptSuf := by
        simp [List.append_assoc]

set_option maxRecDepth 8192 in
/-- C1 counterexample: the substitution in `evaluate_documentation` is two
sequential `replace` calls, so a generated document containing the literal
reference placeholder leaves that token in the final prompt sent to the
completion capability, contradicting the claim that no placeholder token ever
survives. -/
theorem evaluate_prompt_placeholder_survives :
    hasInfix origTok
      (evaluate_documentation_prompt "reference text".toList
        "see {original}".toList) = true := by decide

/-- C1 (amended): the grading-prompt substitution is sequential, not
single-pass — the reference placeholder is replaced throughout the template
first and the generated-document placeholder is replaced throughout the result
afterwards.  For documents that contain no brace character (in particular no
literal placeholder token) each placeholder is replaced exactly once, in
place, and no placeholder token survives in the final prompt. -/
theorem evaluate_prompt_sequential (original_doc generated_doc : List Char)
    (h1 : '{' ∉ original_doc) (h2 : '{' ∉ generated_doc) :
    evaluate_documentation_prompt original_doc generated_doc
        = promptPre ++ original_doc ++ promptMid ++ generated_doc ++ promptSuf ∧
      hasInfix origTok (evaluate_documentation_prompt original_doc generated_doc) = false ∧
      hasInfix genTok (evaluate_documentation_prompt original_doc generated_doc) = false := by
  have heq := evaluate_prompt_eq original_doc generated_doc h1
  have hbrace : '{' ∉ promptPre ++ original_doc ++ promptMid ++ generated_doc ++ promptSuf := by
    intro hmem
    simp only [List.mem_append] at hmem
    rcases hmem with ((((h | h) | h) | h) | h)
    · exact absurd h (by decide)
    · exact h1 h
    · exact absurd h (by decide)
    · exact h2 h
    · exact absurd h (by decide)
  refine ⟨heq, ?_, ?_⟩
  · rw [heq]
    exact hasInfix_eq_false (x := '{') (by decide) hbrace
  · rw [heq]
    exact hasInfix_eq_false (x := '{') (by decide) hbrace

/-- Closed witness for the amended C1 theorem at concrete brace-free
documents. -/
theorem evaluate_prompt_sequential_witness :
    evaluate_documentation_prompt "the reference".toList "the answer".toList
        = promptPre ++ "the reference".toList ++ promptMid ++ "the answer".toList ++ promptSuf ∧
      hasInfix origTok
        (evaluate_documentation_prompt "the reference".toList "the answer".toList) = false ∧
      hasInfix genTok
        (evaluate_documentation_prompt "the reference".toList "the answer".toList) = false :=
  evaluate_prompt_sequential "the reference".toList "the answer".toList
    (by decide) (by decide)

/-- C2 counterexample: a whitespace-only completion response is stripped and
returned as a successful (non-`None`) result; no emptiness check exists and no
typed `SynthesisError` value exists in the code. -/
theorem generate_holistic_documentation_empty_success :
    (generate_holistic_documentation [] "" (.success "   ")).result = some "" ∧
      (generate_holistic_documentation [] "" (.success "   ")).result.isSome = true :=
  ⟨rfl, rfl⟩

/-- C2 (amended): when the completion capability returns successfully the text
is trimmed and always returned as the successful result — including when the
trimmed text is empty; no non-emptiness check is performed and no typed
failure value exists. -/
theorem generate_holistic_documentation_success_trim (project_info : List FileInfo)
    (template text : String) :
    (generate_holistic_documentation project_info template (.success text)).result
        = some (pyStrip text) ∧
      (generate_holistic_documentation project_info template (.success text)).ui_errors = [] ∧
      (generate_holistic_documentation project_info template (.success text)).log_errors = [] :=
  ⟨rfl, rfl, rfl⟩

/-- C3 counterexample: an authentication failure and a generic failure return
the same value (`None`) to the caller, so the caller cannot distinguish them
and the authentication failure is not mapped to a typed `AuthError`. -/
theorem generate_holistic_documentation_untyped_failure :
    (generate_holistic_documentation [] "" .authenticationError).result
        = (generate_holistic_documentation [] "" (.otherError "boom")).result ∧
      (generate_holistic_documentation [] "" .authenticationError).result = none :=
  ⟨rfl, rfl⟩

/-- C3 (amended): every completion failure returns the untyped value `None` to
the caller; authentication and connectivity failures are distinguished only by
which fixed `st.error` banner is displayed, and any other failure only by a
log entry carrying the underlying message. -/
theorem generate_holistic_documentation_failure_mapping (project_info : List FileInfo)
    (template msg : String) :
    (generate_holistic_documentation project_info template .authenticationError).result = none ∧
      (generate_holistic_documentation project_info template .authenticationError).ui_errors
        = ["Invalid Azure OpenAI API Key. Please check your configuration."] ∧
      (generate_holistic_documentation project_info template .apiConnectionError).result = none ∧
      (generate_holistic_documentation project_info template .apiConnectionError).ui_errors
        = ["Failed to connect to Azure OpenAI. Please check your network and API endpoint."] ∧
      (generate_holistic_documentation project_info template (.otherError msg)).result = none ∧
      (generate_holistic_documentation project_info template (.otherError msg)).log_errors
        = ["Error generating holistic documentation: " ++ msg] :=
  ⟨rfl, rfl, rfl, rfl, rfl, rfl⟩

/-- C4 counterexample: when the clone itself fails, a `TemporaryDirectory` has
been allocated but no explicit release happens on that exit path, and the
failure is surfaced as an `st.error` banner with processing aborted — not as a
typed `AcquisitionError`. -/
theorem run_main_clone_failure_no_release :
    (run_main (.remoteUrl (.err "network unreachable"))).allocated = 1 ∧
      (run_main (.remoteUrl (.err "network unreachable"))).released = 0 ∧
      (run_main (.remoteUrl (.err "network unreachable"))).ui_errors
        = ["Error processing GitHub repository: Failed to clone repository: network unreachable"] ∧
      (run_main (.remoteUrl (.err "network unreachable"))).proceeded = false :=
  ⟨rfl, rfl, rfl, rfl⟩

/-- C4 (amended): when the clone succeeds, the ephemeral directory is released
exactly once by the `finally` block of `main`, whatever the rest of the
pipeline does; when the clone fails, the code performs no explicit release on
that exit path (removal is left to the interpreter's finalizer) and surfaces
the failure as a UI error banner with processing aborted rather than as a
typed `AcquisitionError`; local-path inputs allocate and release nothing. -/
theorem run_main_release_discipline (msg : String) :
    (run_main (.remoteUrl .ok)).allocated = 1 ∧
      (run_main (.remoteUrl .ok)).released = 1 ∧
      (run_main (.remoteUrl (.err msg))).allocated = 1 ∧
      (run_main (.remoteUrl (.err msg))).released = 0 ∧
      (run_main (.remoteUrl (.err msg))).proceeded = false ∧
      (run_main (.remoteUrl (.err msg))).ui_errors
        = ["Error processing GitHub repository: Failed to clone repository: " ++ msg] ∧
      (run_main (.localPath true)).allocated = 0 ∧
      (run_main (.localPath false)).released = 0 :=
  ⟨rfl, rfl, rfl, rfl, rfl, rfl, rfl, rfl⟩

/-- C5: the file enumeration never yields a file whose depth relative to the
root (number of separators in its relative path, i.e. its segment count minus
one) reaches `max_depth`, and yields every `.py` file of the walked tree whose
depth is strictly below `max_depth`; the default bound is 5. -/
theorem get_python_files_depth (walk : List (List String × List String)) (m : Nat) :
    MAX_DIRECTORY_DEPTH = 5 ∧
      (∀ p ∈ get_python_files walk m, p.length - 1 < m) ∧
      (∀ root files f, (root, files) ∈ walk → f ∈ files → pyEndsWith f ".py" = true →
        root.length < m → root ++ [f] ∈ get_python_files walk m) := by
  refine ⟨rfl, ?_, ?_⟩
  · intro p hp
    simp only [get_python_files, List.mem_flatMap] at hp
    obtain ⟨rf, hrf, hmem⟩ := hp
    by_cases h : rf.1.length < m
    · rw [if_pos h] at hmem
      obtain ⟨f, _, rfl⟩ := List.mem_map.mp hmem
      simpa using h
    · rw [if_neg h] at hmem
      simp at hmem
  · intro root files f hw hf hpy hd
    simp only [get_python_files, List.mem_flatMap]
    refine ⟨(root, files), hw, ?_⟩
    rw [if_pos hd]
    exact List.mem_map.mpr ⟨f, List.mem_filter.mpr ⟨hf, hpy⟩, rfl⟩

/-- Closed witness for C5: a `.py` file one level deep is enumerated under the
default depth bound. -/
theorem get_python_files_depth_witness :
    ["sub"] ++ ["c.py"] ∈ get_python_files walkExample 5 :=
  (get_python_files_depth walkExample 5).2.2 ["sub"] ["c.py"] "c.py"
    (by decide) (by decide) (by decide) (by decide)

theorem bodySize_nil : bodySize .nil = 0 := rfl

theorem bodySize_cons (s : PyStmt) (r : PyBody) :
    bodySize (.cons s r) = stmtSize s + bodySize r := by
  simp [bodySize]

theorem stmtSize_pos (s : PyStmt) : 1 ≤ stmtSize s := by
  cases s <;> simp [stmtSize]

theorem stmtSize_child (s : PyStmt) : stmtSize s = 1 + bodySize (childBody s) := by
  cases s <;> simp [stmtSize, childBody, bodySize]

theorem bodySize_bodyApp_fuel :
    ∀ (n : Nat) (a b : PyBody), bodySize a ≤ n →
      bodySize (bodyApp a b) = bodySize a + bodySize b := by
  intro n
  induction n with
  | zero =>
    intro a b ha
    cases a with
    | nil => simp [bodyApp, bodySize_nil]
    | cons s r =>
      exfalso
      have h1 := stmtSize_pos s
      rw [bodySize_cons] at ha
      omega
  | succ n ih =>
    intro a b ha
    cases a with
    | nil => simp [bodyApp, bodySize_nil]
    | cons s r =>
      rw [show bodyApp (.cons s r) b = .cons s (bodyApp r b) from by simp [bodyApp]]
      rw [bodySize_cons, bodySize_cons]
      rw [bodySize_cons] at ha
      have h1 := stmtSize_pos s
      rw [ih r b (by omega)]
      omega

theorem bodySize_bodyApp (a b : PyBody) :
    bodySize (bodyApp a b) = bodySize a + bodySize b :=
  bodySize_bodyApp_fuel (bodySize a) a b le_rfl

theorem allNodesAux_congr :
    ∀ (f1 f2 : Nat) (q : PyBody), bodySize q ≤ f1 → bodySize q ≤ f2 →
      allNodesAux f1 q = allNodesAux f2 q := by
  intro f1
  induction f1 with
  | zero =>
    intro f2 q h1 _
    cases q with
    | nil => cases f2 <;> rfl
    | cons s r =>
      exfalso
      have := stmtSize_pos s
      rw [bodySize_cons] at h1
      omega
  | succ n ih =>
    intro f2 q h1 h2
    cases q with
    | nil => cases f2 <;> rfl
    | cons s r =>
      cases f2 with
      | zero =>
        exfalso
        have := stmtSize_pos s
        rw [bodySize_cons] at h2
        omega
      | succ m =>
        rw [show allNodesAux (n + 1) (.cons s r)
            = s :: (allNodesAux n (childBody s) ++ allNodesAux n r) from rfl]
        rw [show allNodesAux (m + 1) (.cons s r)
            = s :: (allNodesAux m (childBody s) ++ allNodesAux m r) from rfl]
        rw [bodySize_cons, stmtSize_child s] at h1 h2
        rw [ih m (childBody s) (by omega) (by omega), ih m r (by omega) (by omega)]

theorem allNodesAux_app :
    ∀ (n : Nat) (a b : PyBody), bodySize a + bodySize b ≤ n →
      allNodesAux n (bodyApp a b) = allNodesAux n a ++ allNodesAux n b := by
  intro n
  induction n with
  | zero => intro a b _; rfl
  | succ n ih =>
    intro a b h
    cases a with
    | nil =>
      rw [show bodyApp .nil b = b from rfl]
      rw [show allNodesAux (n + 1) PyBody.nil = [] from rfl]
      simp
    | cons s r =>
      rw [show bodyApp (.cons s r) b = .cons s (bodyApp r b) from by simp [bodyApp]]
      rw [show allNodesAux (n + 1) (.cons s (bodyApp r b))
          = s :: (allNodesAux n (childBody s) ++ allNodesAux n (bodyApp r b)) from rfl]
      rw [show allNodesAux (n + 1) (.cons s r)
          = s :: (allNodesAux n (childBody s) ++ allNodesAux n r) from rfl]
      rw [bodySize_cons, stmtSize_child s] at h
      rw [ih r b (by omega)]
      rw [allNodesAux_congr (n + 1) n b (by omega) (by omega)]
      simp [List.append_assoc]

theorem allNodesBody_cons (s : PyStmt) (rest : PyBody) :
    allNodesBody (.cons s rest)
      = s :: (allNodesBody (childBody s) ++ allNodesBody rest) := by
  rw [allNodesBody, bodySize_cons, stmtSize_child s]
  rw [show 1 + bodySize (childBody s) + bodySize rest
      = (bodySize (childBody s) + bodySize rest) + 1 from by omega]
  rw [show allNodesAux ((bodySize (childBody s) + bodySize rest) + 1) (.cons s rest)
      = s :: (allNodesAux (bodySize (childBody s) + bodySize rest) (childBody s)
          ++ allNodesAux (bodySize (childBody s) + bodySize rest) rest) from rfl]
  rw [allNodesBody, allNodesBody]
  rw [allNodesAux_congr (bodySize (childBody s) + bodySize rest) (bodySize (childBody s))
    (childBody s) (Nat.le_add_right _ _) le_rfl]
  rw [allNodesAux_congr (bodySize (childBody s) + bodySize rest) (bodySize rest)
    rest (Nat.le_add_left _ _) le_rfl]

theorem allNodesBody_bodyApp (a b : PyBody) :
    allNodesBody (bodyApp a b) = allNodesBody a ++ allNodesBody b := by
  rw [allNodesBody, bodySize_bodyApp]
  rw [allNodesAux_app (bodySize a + bodySize b) a b le_rfl]
  rw [allNodesBody, allNodesBody]
  rw [allNodesAux_congr (bodySize a + bodySize b) (bodySize a) a (Nat.le_add_right _ _) le_rfl]
  rw [allNodesAux_congr (bodySize a + bodySize b) (bodySize b) b (Nat.le_add_left _ _) le_rfl]

theorem walkAux_perm :
    ∀ (fuel : Nat) (q : PyBody), bodySize q ≤ fuel →
      (walkAux fuel q).Perm (allNodesBody q) := by
  intro fuel
  induction fuel with
  | zero =>
    intro q h
    cases q with
    | nil =>
      rw [allNodesBody, bodySize_nil]
      exact List.Perm.refl _
    | cons s r =>
      exfalso
      have := stmtSize_pos s
      rw [bodySize_cons] at h
      omega
  | succ n ih =>
    intro q h
    cases q with
    | nil =>
      rw [allNodesBody, bodySize_nil]
      exact List.Perm.refl _
    | cons s rest =>
      rw [show walkAux (n + 1) (.cons s rest)
          = s :: walkAux n (bodyApp rest (childBody s)) from rfl]
      have hsz : bodySize (bodyApp rest (childBody s)) ≤ n := by
        rw [bodySize_bodyApp]
        rw [bodySize_cons, stmtSize_child s] at h
        omega
      have hperm := ih (bodyApp rest (childBody s)) hsz
      rw [allNodesBody_bodyApp] at hperm
      have h1 : (s :: walkAux n (bodyApp rest (childBody s))).Perm
          (s :: (allNodesBody rest ++ allNodesBody (childBody s))) := hperm.cons s
      have h2 : (s :: (allNodesBody rest ++ allNodesBody (childBody s))).Perm
          (s :: (allNodesBody (childBody s) ++ allNodesBody rest)) :=
        (List.perm_append_comm).cons s
      rw [allNodesBody_cons s rest]
      exact h1.trans h2

theorem walk_perm (m : PyBody) : (walk m).Perm (allNodesBody m) := by
  rw [walk]
  exact walkAux_perm (bodySize m) m le_rfl

/-- C8: `extract_info` never raises to its caller: every failure of the
fallible prelude — unreadable file, decoding failure, syntax error — is
converted into a `None` result by the `except Exception` handler, and a
successful parse always yields a `FileInfo`. -/
theorem extract_info_total (file_path content msg : String) (tree : PyBody) :
    extract_info file_path (.ioError msg) = none ∧
      extract_info file_path (.decodeError msg) = none ∧
      extract_info file_path (.syntaxError msg) = none ∧
      (extract_info file_path (.ok content tree)).isSome = true :=
  ⟨rfl, rfl, rfl, rfl⟩

/-- C7 counterexample: for a module with one top-level function containing one
nested function, `extract_info` reports two functions while the file has a
single top-level function definition — the function list does not have the
same count as the top-level definitions. -/
theorem extract_info_nested_counterexample :
    (extract_info "m.py" (.ok "" nestedExample)).map (fun fi => fi.functions.length)
        = some 2 ∧
      (topLevelFunctionNames nestedExample).length = 1 ∧
      (extract_info "m.py" (.ok "" nestedExample)).map (fun fi => fi.functions.length)
        ≠ some (topLevelFunctionNames nestedExample).length := by
  refine ⟨by decide, by decide, by decide⟩

/-- C7 (amended): for every parsed module, the function list of the returned
`FileSummary` holds the `(name, docstring)` pair of every synchronous function
definition anywhere in the syntax tree — nested functions and methods
included, async definitions excluded — and the class list the pair of every
class definition anywhere in the tree, not only the top-level ones; each name
is paired with the construct's docstring, or `None` when absent. -/
theorem extract_info_walks_whole_tree (file_path content : String) (m : PyBody) :
    ∃ fi, extract_info file_path (.ok content m) = some fi ∧
      fi.functions.Perm ((allNodesBody m).filterMap pickFunction) ∧
      fi.classes.Perm ((allNodesBody m).filterMap pickClass) :=
  ⟨_, rfl, (walk_perm m).filterMap pickFunction, (walk_perm m).filterMap pickClass⟩

/-- C10: the function list contains every synchronous function definition of
the whole tree (methods and nested functions included), every entry of the
function list stems from a synchronous function definition (so no async
definition contributes), and the class list likewise corresponds to the class
definitions of the whole tree. -/
theorem extract_info_nested_membership (file_path content : String) (m : PyBody) :
    ∃ fi, extract_info file_path (.ok content m) = some fi ∧
      (∀ n b, PyStmt.funcDef n b ∈ allNodesBody m → (n, get_docstring b) ∈ fi.functions) ∧
      (∀ q ∈ fi.functions,
        ∃ n b, PyStmt.funcDef n b ∈ allNodesBody m ∧ q = (n, get_docstring b)) ∧
      (∀ n b, PyStmt.classDef n b ∈ allNodesBody m → (n, get_docstring b) ∈ fi.classes) ∧
      (∀ q ∈ fi.classes,
        ∃ n b, PyStmt.classDef n b ∈ allNodesBody m ∧ q = (n, get_docstring b)) := by
  refine ⟨_, rfl, ?_, ?_, ?_, ?_⟩
  · intro n b hmem
    apply List.mem_filterMap.mpr
    exact ⟨PyStmt.funcDef n b, ((walk_perm m).mem_iff).mpr hmem, rfl⟩
  · intro q hq
    obtain ⟨s, hs, hpick⟩ := List.mem_filterMap.mp hq
    cases s with
    | funcDef n b =>
      refine ⟨n, b, ((walk_perm m).mem_iff).mp hs, ?_⟩
      simp [pickFunction] at hpick
      exact hpick.symm
    | asyncFuncDef n b => simp [pickFunction] at hpick
    | classDef n b => simp [pickFunction] at hpick
    | exprConstStr s => simp [pickFunction] at hpick
    | otherStmt b => simp [pickFunction] at hpick
  · intro n b hmem
    apply List.mem_filterMap.mpr
    exact ⟨PyStmt.classDef n b, ((walk_perm m).mem_iff).mpr hmem, rfl⟩
  · intro q hq
    obtain ⟨s, hs, hpick⟩ := List.mem_filterMap.mp hq
    cases s with
    | funcDef n b => simp [pickClass] at hpick
    | asyncFuncDef n b => simp [pickClass] at hpick
    | classDef n b =>
      refine ⟨n, b, ((walk_perm m).mem_iff).mp hs, ?_⟩
      simp [pickClass] at hpick
      exact hpick.symm
    | exprConstStr s => simp [pickClass] at hpick
    | otherStmt b => simp [pickClass] at hpick

/-- Closed witness for C10: in a module with an async function and a class
holding one method, the method is reported in the function list. -/
theorem extract_info_nested_membership_witness :
    ∃ fi, extract_info "w.py" (.ok "" asyncExample) = some fi ∧
      ("method", (none : Option String)) ∈ fi.functions := by
  obtain ⟨fi, hfi, h1, _, _, _⟩ := extract_info_nested_membership "w.py" "" asyncExample
  exact ⟨fi, hfi, h1 "method" .nil (by decide)⟩

theorem main_loop_aux (extract : String → Option FileInfo) (file_paths : List String) :
    ∀ acc : List FileInfo × List String,
      file_paths.foldl
        (fun acc file_path =>
          match extract file_path with
          | some fi => (acc.1 ++ [fi], acc.2)
          | none => (acc.1, acc.2 ++ ["Failed to extract information from " ++ file_path]))
        acc
      = (acc.1 ++ file_paths.filterMap extract,
          acc.2 ++ (file_paths.filter (fun p => (extract p).isNone)).map
            (fun p => "Failed to extract information from " ++ p)) := by
  induction file_paths with
  | nil => intro acc; simp
  | cons p rest ih =>
    intro acc
    cases h : extract p with
    | some fi =>
      simp only [List.foldl_cons, h]
      rw [ih]
      simp [List.filterMap_cons, List.filter_cons, h, List.append_assoc]
    | none =>
      simp only [List.foldl_cons, h]
      rw [ih]
      simp [List.filterMap_cons, List.filter_cons, h, List.append_assoc]

theorem splitSlash_ne_nil (l : List Char) : splitSlash l ≠ [] := by
  cases l with
  | nil => simp [splitSlash]
  | cons c rest =>
    simp only [splitSlash]
    by_cases h : (c == '/') = true
    · simp [h]
    · simp only [Bool.not_eq_true] at h
      simp only [h, Bool.false_eq_true, if_false]
      cases hs : splitSlash rest <;> simp

theorem splitSlash_cons_nonslash (c : Char) (l : List Char) (h : (c == '/') = false) :
    ∃ s ss, splitSlash l = s :: ss ∧ splitSlash (c :: l) = (c :: s) :: ss := by
  obtain ⟨s, ss, hs⟩ : ∃ s ss, splitSlash l = s :: ss := by
    cases hsp : splitSlash l with
    | nil => exact absurd hsp (splitSlash_ne_nil l)
    | cons a b => exact ⟨a, b, rfl⟩
  exact ⟨s, ss, hs, by simp [splitSlash, h, hs]⟩

theorem splitSlash_length (l : List Char) : (splitSlash l).length = l.count '/' + 1 := by
  induction l with
  | nil => simp [splitSlash]
  | cons c rest ih =>
    by_cases h : (c == '/') = true
    · have hc : c = '/' := by simpa using h
      subst hc
      simp [splitSlash, ih, List.count_cons]
    · simp only [Bool.not_eq_true] at h
      obtain ⟨s, ss, hs, hcs⟩ := splitSlash_cons_nonslash c rest h
      rw [hcs, List.count_cons]
      have e : (rest.count '/' : Nat) + (if c == '/' then 1 else 0) = rest.count '/' := by
        simp [h]
      rw [e, ← ih, hs]
      simp

theorem two_le_splitSlash_iff (l : List Char) :
    2 ≤ (splitSlash l).length ↔ '/' ∈ l := by
  rw [splitSlash_length]
  constructor
  · intro h
    exact List.count_pos_iff.mp (by omega)
  · intro h
    have := List.count_pos_iff.mpr h
    omega

theorem rstripSlash_eq_nil_iff (l : List Char) :
    rstripSlash l = [] ↔ l.all (fun c => c == '/') = true := by
  induction l with
  | nil => simp [rstripSlash]
  | cons c rest ih =>
    cases hr : rstripSlash rest with
    | nil =>
      have hall : rest.all (fun c => c == '/') = true := ih.mp hr
      have h1 : rstripSlash (c :: rest) = if c == '/' then [] else [c] := by
        simp [rstripSlash, hr]
      rw [h1, List.all_cons]
      by_cases h : (c == '/') = true
      · simp [h, hall]
      · simp only [Bool.not_eq_true] at h
        simp [h, hall]
    | cons x xs =>
      have h1 : rstripSlash (c :: rest) = c :: x :: xs := by
        simp [rstripSlash, hr]
      rw [h1, List.all_cons, Bool.and_eq_true]
      constructor
      · intro hcontra
        simp at hcontra
      · rintro ⟨_, hall⟩
        rw [ih.mpr hall] at hr
        simp at hr

theorem hasNonSlash_of_not_all (l : List Char)
    (h : ¬ l.all (fun c => c == '/') = true) : hasNonSlash l = true := by
  rw [List.all_eq_true] at h
  push_neg at h
  obtain ⟨x, hx, hxs⟩ := h
  rw [hasNonSlash, List.any_eq_true]
  exact ⟨x, hx, by simpa using hxs⟩

theorem hasNonSlash_of_all (l : List Char)
    (h : l.all (fun c => c == '/') = true) : hasNonSlash l = false := by
  rw [List.all_eq_true] at h
  by_contra hc
  rw [Bool.not_eq_false, hasNonSlash, List.any_eq_true] at hc
  obtain ⟨x, hx, hxs⟩ := hc
  have hh := h x hx
  simp only [Bool.not_eq_true'] at hxs
  rw [hh] at hxs
  simp at hxs

theorem mem_rstripSlash_iff (l : List Char) :
    '/' ∈ rstripSlash l ↔ slashThenNonSlash l = true := by
  induction l with
  | nil => simp [rstripSlash, slashThenNonSlash]
  | cons c rest ih =>
    cases hr : rstripSlash rest with
    | nil =>
      have hall : rest.all (fun x => x == '/') = true := (rstripSlash_eq_nil_iff rest).mp hr
      have h1 : rstripSlash (c :: rest) = if c == '/' then [] else [c] := by
        simp [rstripSlash, hr]
      rw [h1]
      by_cases h : (c == '/') = true
      · rw [if_pos h]
        rw [show slashThenNonSlash (c :: rest) = hasNonSlash rest from by
          simp [slashThenNonSlash, h]]
        rw [hasNonSlash_of_all rest hall]
        simp
      · rw [if_neg (by simpa using h)]
        simp only [Bool.not_eq_true] at h
        rw [show slashThenNonSlash (c :: rest) = slashThenNonSlash rest from by
          simp [slashThenNonSlash, h]]
        constructor
        · intro hmem
          have hc : '/' = c := by simpa using hmem
          rw [← hc] at h
          simp at h
        · intro hs
          have : '/' ∈ rstripSlash rest := ih.mpr hs
          rw [hr] at this
          simp at this
    | cons x xs =>
      have h1 : rstripSlash (c :: rest) = c :: x :: xs := by
        simp [rstripSlash, hr]
      have hne : ¬ rest.all (fun y => y == '/') = true := by
        intro hcontra
        rw [(rstripSlash_eq_nil_iff rest).mpr hcontra] at hr
        simp at hr
      rw [h1]
      by_cases h : (c == '/') = true
      · have hc : c = '/' := by simpa using h
        rw [show slashThenNonSlash (c :: rest) = hasNonSlash rest from by
          simp [slashThenNonSlash, h]]
        rw [hasNonSlash_of_not_all rest hne]
        simp [hc]
      · simp only [Bool.not_eq_true] at h
        rw [show slashThenNonSlash (c :: rest) = slashThenNonSlash rest from by
          simp [slashThenNonSlash, h]]
        rw [← ih, hr]
        constructor
        · intro hmem
          rcases List.mem_cons.mp hmem with h2 | h2
          · rw [h2] at h
            simp at h
          · exact h2
        · intro hmem
          exact List.mem_cons_of_mem c hmem

theorem nonemptySegmentCount_cons_slash (l : List Char) :
    nonemptySegmentCount ('/' :: l) = nonemptySegmentCount l := by
  simp [nonemptySegmentCount, splitSlash, List.filter_cons]

theorem cNE_cons_cons_slash (c : Char) (r2 : List Char) (h : (c == '/') = false) :
    nonemptySegmentCount (c :: '/' :: r2) = 1 + nonemptySegmentCount r2 := by
  have h1 : splitSlash ('/' :: r2) = [] :: splitSlash r2 := by simp [splitSlash]
  obtain ⟨s, ss, hs, hcs⟩ := splitSlash_cons_nonslash c ('/' :: r2) h
  have he := h1.symm.trans hs
  injection he with e1 e2
  subst e1
  subst e2
  simp [nonemptySegmentCount, hcs, List.filter_cons, Nat.add_comm]

theorem cNE_cons_cons_nonslash (c d : Char) (r2 : List Char)
    (h : (c == '/') = false) (hd : (d == '/') = false) :
    nonemptySegmentCount (c :: d :: r2) = nonemptySegmentCount (d :: r2) := by
  obtain ⟨s, ss, hs, hcs⟩ := splitSlash_cons_nonslash d r2 hd
  obtain ⟨s2, ss2, hs2, hcs2⟩ := splitSlash_cons_nonslash c (d :: r2) h
  have he := hcs.symm.trans hs2
  injection he with e1 e2
  subst e1
  subst e2
  simp [nonemptySegmentCount, hcs2, hcs, List.filter_cons]

theorem one_le_cNE_iff (l : List Char) :
    1 ≤ nonemptySegmentCount l ↔ hasNonSlash l = true := by
  induction l with
  | nil => simp [nonemptySegmentCount, splitSlash, hasNonSlash]
  | cons c rest ih =>
    by_cases h : (c == '/') = true
    · have hc : c = '/' := by simpa using h
      subst hc
      rw [nonemptySegmentCount_cons_slash]
      rw [show hasNonSlash ('/' :: rest) = hasNonSlash rest from by simp [hasNonSlash]]
      exact ih
    · simp only [Bool.not_eq_true] at h
      constructor
      · intro _
        rw [hasNonSlash, List.any_cons]
        simp [h]
      · intro _
        obtain ⟨s, ss, hs, hcs⟩ := splitSlash_cons_nonslash c rest h
        rw [nonemptySegmentCount, hcs, List.filter_cons]
        simp

theorem two_le_cNE_iff (l : List Char) :
    2 ≤ nonemptySegmentCount l ↔ twoSegs l = true := by
  induction l with
  | nil => simp [nonemptySegmentCount, splitSlash, twoSegs]
  | cons c rest ih =>
    by_cases h : (c == '/') = true
    · have hc : c = '/' := by simpa using h
      subst hc
      rw [nonemptySegmentCount_cons_slash]
      rw [show twoSegs ('/' :: rest) = twoSegs rest from by simp [twoSegs]]
      exact ih
    · simp only [Bool.not_eq_true] at h
      rw [show twoSegs (c :: rest) = slashThenNonSlash rest from by simp [twoSegs, h]]
      cases rest with
      | nil =>
        obtain ⟨s, ss, hs, hcs⟩ := splitSlash_cons_nonslash c [] h
        have e1 : s = [] ∧ ss = [] := by
          have : ([] : List Char) :: [] = s :: ss := by
            rw [← hs]
            rfl
          injection this with a b
          exact ⟨a.symm, b.symm⟩
        rw [show slashThenNonSlash [] = false from rfl]
        rw [nonemptySegmentCount, hcs, e1.1, e1.2, List.filter_cons]
        simp
      | cons d r2 =>
        by_cases hd : (d == '/') = true
        · have hdc : d = '/' := by simpa using hd
          subst hdc
          rw [cNE_cons_cons_slash c r2 h]
          rw [show slashThenNonSlash ('/' :: r2) = hasNonSlash r2 from by
            simp [slashThenNonSlash]]
          rw [← one_le_cNE_iff r2]
          omega
        · simp only [Bool.not_eq_true] at hd
          rw [cNE_cons_cons_nonslash c d r2 h hd]
          rw [show slashThenNonSlash (d :: r2) = slashThenNonSlash r2 from by
            simp [slashThenNonSlash, hd]]
          rw [ih]
          rw [show twoSegs (d :: r2) = slashThenNonSlash r2 from by simp [twoSegs, hd]]

theorem twoSegs_lstrip (l : List Char) : twoSegs (lstripSlash l) = twoSegs l := by
  induction l with
  | nil => rfl
  | cons c rest ih =>
    by_cases h : (c == '/') = true
    · rw [show lstripSlash (c :: rest) = lstripSlash rest from by
        simp [lstripSlash, List.dropWhile_cons, h]]
      rw [ih]
      simp [twoSegs, h]
    · rw [show lstripSlash (c :: rest) = c :: rest from by
        simp [lstripSlash, List.dropWhile_cons, h]]

theorem lstripSlash_head_false (l : List Char) :
    ∀ c r, lstripSlash l = c :: r → (c == '/') = false := by
  induction l with
  | nil =>
    intro c r h
    simp [lstripSlash] at h
  | cons d rest ih =>
    intro c r h
    by_cases hd : (d == '/') = true
    · rw [show lstripSlash (d :: rest) = lstripSlash rest from by
        simp [lstripSlash, List.dropWhile_cons, hd]] at h
      exact ih c r h
    · rw [show lstripSlash (d :: rest) = d :: rest from by
        simp [lstripSlash, List.dropWhile_cons, hd]] at h
      injection h with e1 _
      subst e1
      simpa using hd

theorem twoSegs_eq_slashThenNonSlash_noLead (q : List Char)
    (hq : ∀ c r, q = c :: r → (c == '/') = false) :
    twoSegs q = slashThenNonSlash q := by
  cases q with
  | nil => rfl
  | cons c r =>
    have h := hq c r rfl
    simp [twoSegs, slashThenNonSlash, h]

theorem code_path_test_iff (path : List Char) :
    2 ≤ (splitSlash (stripSlash path)).length ↔ 2 ≤ nonemptySegmentCount path := by
  rw [two_le_splitSlash_iff]
  rw [show stripSlash path = rstripSlash (lstripSlash path) from rfl]
  rw [mem_rstripSlash_iff]
  rw [← twoSegs_eq_slashThenNonSlash_noLead (lstripSlash path) (lstripSlash_head_false path)]
  rw [twoSegs_lstrip]
  exact (two_le_cNE_iff path).symm

/-- C6 counterexample: a URL whose host is the hosting service but whose
network location carries an explicit port — components of
`https://github.com:443/owner/repo` — is classified as a local path by the
code, because the comparison is against the whole `netloc`, not the host. -/
theorem is_github_url_port_counterexample :
    spec_is_remote "github.com:443".toList "/owner/repo".toList ∧
      is_github_url "github.com:443".toList "/owner/repo".toList = false :=
  ⟨⟨by decide, by decide⟩, by decide⟩

/-- C6 (amended): the locator classifies an input as a remote-repository
reference iff the parsed URL's network location equals `github.com` exactly —
so a URL carrying userinfo or an explicit port is treated as a local path —
and the path has at least two non-empty segments; every other input is treated
as a local path. -/
theorem is_github_url_iff (netloc path : List Char) :
    is_github_url netloc path = true ↔ netloc = ghHost ∧ 2 ≤ nonemptySegmentCount path := by
  simp only [is_github_url, Bool.and_eq_true, beq_iff_eq, decide_eq_true_eq]
  exact and_congr Iff.rfl (code_path_test_iff path)

/-- Closed witness for the amended C6 theorem: the components of
`https://github.com/octo/repo` are classified as remote. -/
theorem is_github_url_iff_witness :
    is_github_url "github.com".toList "/octo/repo".toList = true :=
  (is_github_url_iff "github.com".toList "/octo/repo".toList).mpr ⟨by decide, by decide⟩

/-- C9: the loop of `main` produces exactly one `FileInfo` per successfully
parsed file, in enumeration order, no entry at all for a file whose extraction
failed, and one warning message per failed file. -/
theorem main_loop_spec (extract : String → Option FileInfo) (file_paths : List String) :
    (main_loop extract file_paths).1 = file_paths.filterMap extract ∧
      (main_loop extract file_paths).2
        = (file_paths.filter (fun p => (extract p).isNone)).map
            (fun p => "Failed to extract information from " ++ p) := by
  have h := main_loop_aux extract file_paths ([], [])
  rw [main_loop, h]
  simp

end CodeDoc
